import Mathlib

/-!
Shallow embedding of the checkers rules engine and Monte-Carlo solver
(from `src/main/python/checkers`), with theorems checking the
natural-language specification against the code.
-/

/-- Players of a checkers game, in turn order (`CheckersPlayer` in `model/util.py`). -/
inductive CheckersPlayer where
  | LIGHT
  | DARK
deriving DecidableEq

/-- `CheckersPlayer.next`: the player that takes a turn after this player. -/
def CheckersPlayer.next : CheckersPlayer → CheckersPlayer
  | .LIGHT => .DARK
  | .DARK => .LIGHT

/-- Checkers piece types (`CheckersPieceType` in `model/util.py`). -/
inductive CheckersPieceType where
  | MAN
  | KING
deriving DecidableEq

/-- Immutable properties of a checkers piece (`CheckersPiece` in `model/util.py`). -/
structure CheckersPiece where
  owner : CheckersPlayer
  type : CheckersPieceType
deriving DecidableEq

/-- `sign` from `model/util.py`. -/
def intSign (value : Int) : Int :=
  if value > 0 then 1 else if value < 0 then -1 else 0

/-- Immutable 2D index (`Index2D` in `model/util.py`); `x` is the column index, `y` the row index. -/
structure Index2D where
  x : Int
  y : Int
deriving DecidableEq

/-- Element-wise addition (`Index2D.__add__`). -/
instance : Add Index2D := ⟨fun a b => ⟨a.x + b.x, a.y + b.y⟩⟩

/-- Element-wise subtraction (`Index2D.__sub__`). -/
instance : Sub Index2D := ⟨fun a b => ⟨a.x - b.x, a.y - b.y⟩⟩

/-- Element-wise sign (`Index2D.sign`). -/
def Index2D.sign (i : Index2D) : Index2D := ⟨intSign i.x, intSign i.y⟩

/-- A checkers board (`CheckersBoard` in `model/util.py`).
`cells` is column-major, mirroring `_list_2d`: `cells[x][y]` is the piece at column `x`, row `y`. -/
structure CheckersBoard where
  row_count : Nat
  column_count : Nat
  cells : List (List (Option CheckersPiece))
deriving DecidableEq

/-- `CheckersBoard.__getitem__`: read the cell at a 2D index.
All reads performed by the rules engine are guarded by the bounds test below,
so the out-of-bounds behaviour of this total model is never exercised. -/
def CheckersBoard.get (b : CheckersBoard) (i : Index2D) : Option CheckersPiece :=
  (b.cells.getD i.x.toNat []).getD i.y.toNat none

/-- `CheckersBoard.__setitem__`: write the cell at a 2D index. -/
def CheckersBoard.set (b : CheckersBoard) (i : Index2D) (v : Option CheckersPiece) : CheckersBoard :=
  { b with cells := b.cells.set i.x.toNat ((b.cells.getD i.x.toNat []).set i.y.toNat v) }

/-- `CheckersBoard.__contains__`: whether a 2D index is within the bounds of the board. -/
def CheckersBoard.contains (b : CheckersBoard) (i : Index2D) : Prop :=
  0 ≤ i.x ∧ i.x < b.column_count ∧ 0 ≤ i.y ∧ i.y < b.row_count

instance (b : CheckersBoard) (i : Index2D) : Decidable (b.contains i) := by
  unfold CheckersBoard.contains; infer_instance

/-- The board invariant implicit in `CheckersBoard.__init__`: `cells` has
`column_count` columns of `row_count` cells each. -/
def CheckersBoard.wf (b : CheckersBoard) : Prop :=
  b.cells.length = b.column_count ∧ ∀ col ∈ b.cells, col.length = b.row_count

instance (b : CheckersBoard) : Decidable b.wf := by
  unfold CheckersBoard.wf; infer_instance

/-- `CheckersBoard.__iter__`: the occupied squares of a board, paired with their pieces,
in the iteration order of `_list_2d` (columns outer, rows inner). -/
def boardPieces (b : CheckersBoard) : List (Index2D × CheckersPiece) :=
  (List.range b.column_count).flatMap (fun x =>
    (List.range b.row_count).filterMap (fun y =>
      (b.get ⟨Int.ofNat x, Int.ofNat y⟩).map (fun p => (⟨Int.ofNat x, Int.ofNat y⟩, p))))

/-- A jump that is part of a capturing move (`CheckersJump` in `model/util.py`). -/
structure CheckersJump where
  destination : Index2D
  captured_square : Index2D
deriving DecidableEq

/-- An immutable move (`CheckersMove` in `model/util.py`): the squares the moving piece visits. -/
structure CheckersMove where
  visited_squares : List Index2D
deriving DecidableEq

/-- `CheckersMove.origin`: the first visited square. -/
def CheckersMove.origin (m : CheckersMove) : Index2D := m.visited_squares.headD ⟨0, 0⟩

/-- `CheckersMove.destination`: the last visited square. -/
def CheckersMove.destination (m : CheckersMove) : Index2D := m.visited_squares.getLastD ⟨0, 0⟩

/-- `CheckersMove.__len__`: the number of visited squares. -/
def CheckersMove.len (m : CheckersMove) : Nat := m.visited_squares.length

/-- Immutable result of a checkers game (`CheckersGameResult` in `model/util.py`). -/
structure CheckersGameResult where
  winner : Option CheckersPlayer
  total_ply_count : Int
deriving DecidableEq

/-- `CheckersGameResult.__post_init__`: constructing a result validates that the
total ply count is positive, raising a `ValueError` otherwise. -/
def mkCheckersGameResult (winner : Option CheckersPlayer) (total_ply_count : Int) :
    Except String CheckersGameResult :=
  if total_ply_count ≤ 0 then
    .error ("Total ply count must be positive, not " ++ toString total_ply_count ++ ".")
  else
    .ok ⟨winner, total_ply_count⟩

/-- `DIAGONAL_DIRECTIONS` from `model/rules.py`. -/
def DIAGONAL_DIRECTIONS : List Index2D := [⟨-1, 1⟩, ⟨1, 1⟩, ⟨1, -1⟩, ⟨-1, -1⟩]

/-- `LIGHT_PLAYER_FORWARD_DIRECTIONS` from `model/rules.py`. -/
def LIGHT_PLAYER_FORWARD_DIRECTIONS : List Index2D := [⟨-1, 1⟩, ⟨1, 1⟩]

/-- `DARK_PLAYER_FORWARD_DIRECTIONS` from `model/rules.py`. -/
def DARK_PLAYER_FORWARD_DIRECTIONS : List Index2D := [⟨1, -1⟩, ⟨-1, -1⟩]

/-- `get_forward_directions` from `model/rules.py`. -/
def get_forward_directions : CheckersPlayer → List Index2D
  | .LIGHT => LIGHT_PLAYER_FORWARD_DIRECTIONS
  | .DARK => DARK_PLAYER_FORWARD_DIRECTIONS

/-- `get_kings_row_index` from `model/rules.py`. -/
def get_kings_row_index (player : CheckersPlayer) (board : CheckersBoard) : Int :=
  match player with
  | .LIGHT => (board.row_count : Int) - 1
  | .DARK => 0

/-- Fuel that always suffices for the diagonal `while square in board` walks of
`model/rules.py`: each step changes the row index by ±1, so a walk stays in
bounds for at most `row_count` steps. -/
def CheckersBoard.rayFuel (b : CheckersBoard) : Nat := b.row_count + b.column_count

/-- The king scan of `add_legal_jumps` (`while square in board: if board[square]: ... break`):
walk from `sq` in direction `delta` and return the first occupied square with its piece. -/
def findFirstPiece (b : CheckersBoard) (delta : Index2D) :
    Index2D → Nat → Option (Index2D × CheckersPiece)
  | _, 0 => none
  | sq, fuel + 1 =>
    if b.contains sq then
      match b.get sq with
      | some p => some (sq, p)
      | none => findFirstPiece b delta (sq + delta) fuel
    else
      none

/-- The empty-ray walks of `model/rules.py`
(`while destination in board: if board[destination] is not EMPTY: break ...`):
collect the consecutive empty in-bounds squares starting at `sq`, in direction `delta`. -/
def rayEmptySquares (b : CheckersBoard) (delta : Index2D) :
    Index2D → Nat → List Index2D
  | _, 0 => []
  | sq, fuel + 1 =>
    if b.contains sq then
      match b.get sq with
      | some _ => []
      | none => sq :: rayEmptySquares b delta (sq + delta) fuel
    else
      []

/-- `add_legal_jumps` from `model/rules.py`, as a pure function returning
the jumps that the source appends to `jumps`. -/
def add_legal_jumps (piece : CheckersPiece) (origin : Index2D) (captured_squares : List Index2D)
    (board : CheckersBoard) : List CheckersJump :=
  match piece.type with
  | .MAN =>
    DIAGONAL_DIRECTIONS.filterMap (fun delta =>
      -- The captured square must contain a piece owned by another player.
      let captured_square := origin + delta
      if board.contains captured_square then
        match board.get captured_square with
        | none => none
        | some captured_piece =>
          if captured_piece.owner = piece.owner then none
          else
            -- The destination square must be empty.
            let destination := captured_square + delta
            if board.contains destination ∧ board.get destination = none then
              -- Cannot capture the same piece more than once.
              if captured_square ∈ captured_squares then none
              else some ⟨destination, captured_square⟩
            else none
      else none)
  | .KING =>
    DIAGONAL_DIRECTIONS.flatMap (fun delta =>
      -- Search for the nearest piece in the current direction.
      match findFirstPiece board delta (origin + delta) board.rayFuel with
      | none => []
      | some (captured_square, captured_piece) =>
        -- The captured piece must be owned by another player.
        if captured_piece.owner = piece.owner then []
        -- Cannot capture the same piece more than once.
        else if captured_square ∈ captured_squares then []
        else
          -- Continue moving in the current direction until the path is blocked.
          (rayEmptySquares board delta (captured_square + delta) board.rayFuel).map
            (fun destination => ⟨destination, captured_square⟩))

/-- `add_legal_non_capturing_moves` from `model/rules.py`, as a pure function
returning the moves that the source appends to `moves`. -/
def add_legal_non_capturing_moves (piece_type : CheckersPieceType)
    (forward_directions : List Index2D) (origin : Index2D) (board : CheckersBoard) :
    List CheckersMove :=
  match piece_type with
  | .MAN =>
    -- A man can move one step in one of the diagonally forward directions if the
    -- destination square is free.
    forward_directions.filterMap (fun delta =>
      let destination := origin + delta
      if board.contains destination ∧ board.get destination = none then
        some ⟨[origin, destination]⟩
      else none)
  | .KING =>
    -- A king can move any number of steps in one of the diagonal directions as long
    -- as it has a free path.
    DIAGONAL_DIRECTIONS.flatMap (fun delta =>
      (rayEmptySquares board delta (origin + delta) board.rayFuel).map
        (fun destination => ⟨[origin, destination]⟩))

/-- The number of board squares that hold a piece not owned by `owner` and are not
in `captured_squares`: the quantity that bounds the capture-chain recursion depth. -/
def opponentUncapturedCount (board : CheckersBoard) (owner : CheckersPlayer)
    (captured_squares : List Index2D) : Nat :=
  ((boardPieces board).filter (fun sp =>
    decide (sp.2.owner ≠ owner) && decide (sp.1 ∉ captured_squares))).length

/-- `add_legal_capturing_moves` from `model/rules.py`, as a pure function returning
the moves that the source appends to `moves`. The source recursion terminates because
each recursive call captures one more distinct opponent piece; here that recursion is
expressed with a fuel argument, and callers pass fuel exceeding the opponent piece
count, which the termination theorem proves sufficient. -/
def add_legal_capturing_moves (piece : CheckersPiece) (visited_squares : List Index2D)
    (captured_squares : List Index2D) (board : CheckersBoard) : Nat → List CheckersMove
  | 0 => []
  | fuel + 1 =>
    -- Gather all legal jumps that start from the last square in visited_squares.
    let jumps := add_legal_jumps piece (visited_squares.getLastD ⟨0, 0⟩) captured_squares board
    -- If no further jumps are possible, then the current partial move is a complete move.
    if jumps.isEmpty then
      if 2 ≤ visited_squares.length then [⟨visited_squares⟩] else []
    else
      -- After a successful jump, another jump can be made as part of the same move.
      jumps.flatMap (fun jump =>
        add_legal_capturing_moves piece (visited_squares ++ [jump.destination])
          (captured_squares ++ [jump.captured_square]) board fuel)

/-- The capture-gathering loop of `determine_legal_moves` (`model/rules.py`, first loop):
iterate over the occupied squares, and for each piece of the current player temporarily
remove it from the board, gather its capture chains, and put it back. The board is
threaded through the loop to model the in-place mutation of the source. -/
def gatherCapturingMovesAux (current_player : CheckersPlayer) :
    List (Index2D × CheckersPiece) → List CheckersMove → CheckersBoard →
    List CheckersMove × CheckersBoard
  | [], moves, board => (moves, board)
  | (square, piece) :: rest, moves, board =>
    if piece.owner = current_player then
      -- Temporarily remove piece from the board.
      let board1 := board.set square none
      -- Add capturing moves for piece (visited_squares = [square], captured_squares = []).
      let moves1 := moves ++ add_legal_capturing_moves piece [square] [] board1
        (opponentUncapturedCount board1 piece.owner [] + 1)
      -- Put piece back on the board.
      let board2 := board1.set square (some piece)
      gatherCapturingMovesAux current_player rest moves1 board2
    else
      gatherCapturingMovesAux current_player rest moves board

/-- The capture phase of `determine_legal_moves`: the gathered capturing moves and the
board as left behind by the loop. -/
def gatherCapturingMoves (current_player : CheckersPlayer) (board : CheckersBoard) :
    List CheckersMove × CheckersBoard :=
  gatherCapturingMovesAux current_player (boardPieces board) [] board

/-- The maximum move length over a list of moves (`max(len(move) for move in moves)`,
computed as a fold; equal to the Python `max` for a non-empty list). -/
def maxMoveLength (moves : List CheckersMove) : Nat :=
  moves.foldl (fun acc m => Nat.max acc m.len) 0

/-- `determine_legal_moves` from `model/rules.py`. -/
def determine_legal_moves (current_player : CheckersPlayer) (board : CheckersBoard) :
    List CheckersMove :=
  -- Gather capturing moves.
  let gathered := gatherCapturingMoves current_player board
  let moves := gathered.1
  let board1 := gathered.2
  -- If capturing is possible, it is mandatory to pick a capturing move with the
  -- maximum possible number of captures.
  if moves.isEmpty then
    -- If capturing is not possible, gather non-capturing moves.
    let forward_directions := get_forward_directions current_player
    (boardPieces board1).flatMap (fun sp =>
      if sp.2.owner = current_player then
        add_legal_non_capturing_moves sp.2.type forward_directions sp.1 board1
      else [])
  else
    -- Return only the moves with the maximum possible number of captures.
    let max_move_length := maxMoveLength moves
    moves.filter (fun m => m.len = max_move_length)

/-- The loop body of `remove_pieces_between` (`while square != end_square`):
clear `square`, step by `delta`, repeat. Fueled; the callers walk along a diagonal
of a legal move, for which `rayFuel` is always sufficient. -/
def removePiecesLoop (end_square delta : Index2D) :
    CheckersBoard → Index2D → Nat → CheckersBoard
  | board, _, 0 => board
  | board, square, fuel + 1 =>
    if square = end_square then board
    else removePiecesLoop end_square delta (board.set square none) (square + delta) fuel

/-- `remove_pieces_between` from `model/rules.py`: remove all pieces strictly between
`start_square` and `end_square` from the board. -/
def remove_pieces_between (start_square end_square : Index2D) (board : CheckersBoard) :
    CheckersBoard :=
  let delta := Index2D.sign (end_square - start_square)
  removePiecesLoop end_square delta board (start_square + delta) board.rayFuel

/-- `apply` from `model/rules.py` (named `applyMove` here): apply a move to a board.
The source assumes the move is legal, so the board holds a piece at the move's origin;
an origin without a piece (unreachable through `CheckersState.apply`) leaves the
board unchanged where the source would raise `AttributeError`. -/
def applyMove (move : CheckersMove) (board : CheckersBoard) : CheckersBoard :=
  -- Pick up piece.
  let origin := move.origin
  let destination := move.destination
  match board.get origin with
  | none => board
  | some moving_piece =>
    let board1 := board.set origin none
    -- Crown piece.
    let moving_piece1 :=
      if destination.y = get_kings_row_index moving_piece.owner board1 ∧
          moving_piece.type = .MAN then
        CheckersPiece.mk moving_piece.owner .KING
      else moving_piece
    -- Remove captured pieces (between each pair of consecutive visited squares).
    let pairs := move.visited_squares.zip move.visited_squares.tail
    let board2 := pairs.foldl
      (fun b pq => remove_pieces_between pq.1 pq.2 b) board1
    -- Put down piece.
    board2.set destination (some moving_piece1)

/-- Piece counts accumulated by the counting loop of `determine_result`:
(light men, dark men, light kings, dark kings). -/
def countPiecesLoop (board : CheckersBoard) : Nat × Nat × Nat × Nat :=
  (boardPieces board).foldl
    (fun counts sp =>
      match sp.2.owner, sp.2.type with
      | .LIGHT, .MAN => (counts.1 + 1, counts.2.1, counts.2.2.1, counts.2.2.2)
      | .DARK, .MAN => (counts.1, counts.2.1 + 1, counts.2.2.1, counts.2.2.2)
      | .LIGHT, .KING => (counts.1, counts.2.1, counts.2.2.1 + 1, counts.2.2.2)
      | .DARK, .KING => (counts.1, counts.2.1, counts.2.2.1, counts.2.2.2 + 1))
    (0, 0, 0, 0)

/-- `determine_result` from `model/rules.py`. Returns `Except` so that the
`ValueError` raised by `CheckersGameResult.__post_init__` for a non-positive
ply count is observable. `.ok none` means the game is still in progress. -/
def determine_result (board : CheckersBoard) (current_player : CheckersPlayer)
    (ply_count : Int) (legal_move_count : Int) :
    Except String (Option CheckersGameResult) :=
  -- If the current player cannot make a move, then the other player is the winner.
  if legal_move_count ≤ 0 then
    let winner : CheckersPlayer :=
      match current_player with
      | .LIGHT => .DARK
      | .DARK => .LIGHT
    (mkCheckersGameResult (some winner) ply_count).map some
  else
    -- Count pieces.
    let counts := countPiecesLoop board
    -- A king-versus-king endgame is automatically declared a draw.
    if counts.1 = 0 ∧ counts.2.1 = 0 ∧ counts.2.2.1 = 1 ∧ counts.2.2.2 = 1 then
      (mkCheckersGameResult none ply_count).map some
    else
      -- If the game is still in progress, there is no result.
      .ok none

/-- The state of a checkers game (`CheckersState` in `model/state.py`):
a board, the current player and the ply count. The legal-move cache of the source
is pure memoization (computed from these three fields and invalidated on every
mutation), so it is not part of the model. -/
structure CheckersState where
  board : CheckersBoard
  current_player : CheckersPlayer
  ply_count : Int
deriving DecidableEq

/-- `CheckersState.legal_moves` (via `determine_legal_moves`). -/
def CheckersState.legal_moves (s : CheckersState) : List CheckersMove :=
  determine_legal_moves s.current_player s.board

/-- `CheckersState.apply` from `model/state.py`: if the move is not legal, raise
(the error carries the state at the raise point, which is the unmodified input state,
since the legality check precedes every mutation); otherwise update the board,
advance the turn and increment the ply count. -/
def CheckersState.apply (s : CheckersState) (move : CheckersMove) :
    Except (String × CheckersState) CheckersState :=
  if move ∉ s.legal_moves then
    .error ("Move is not legal for state.", s)
  else
    .ok ⟨applyMove move s.board, s.current_player.next, s.ply_count + 1⟩

/-- `CheckersState.result` from `model/state.py`. -/
def CheckersState.result (s : CheckersState) : Except String (Option CheckersGameResult) :=
  determine_result s.board s.current_player s.ply_count (s.legal_moves.length : Int)

/-- `determine_score` from `ai/solver.py`, with the float arithmetic modelled
exactly over the rationals (`0.001` as `1/1000`, `0.2` as `1/5`). -/
def determine_score (result : Option CheckersGameResult) (player : CheckersPlayer) : ℚ :=
  match result with
  | none => 1 / 2  -- Maximum recursion depth was reached and the game was not finished yet.
  | some r =>
    let game_duration_score : ℚ := min ((1 / 1000 : ℚ) * (r.total_ply_count : ℚ)) (1 / 5)
    match r.winner with
    | none => 1 / 2 + game_duration_score  -- Game ended in a draw.
    | some winner =>
      if winner = player then 1 - game_duration_score  -- Game ended in a win.
      else 0 + game_duration_score  -- Game ended in a loss.

/-- `determine_score_for_move` from `ai/solver.py`. The playouts are randomized
(`run_playout` draws uniformly random moves), so their aggregate (mean, stdev) is
abstracted as the oracle argument `playouts`; the cancellation `Event` is modelled
as a constant flag, checked where the source checks it. The input validation and
the early returns are translated exactly. -/
def determine_score_for_move (playouts : CheckersMove → ℚ × ℚ) (move : CheckersMove)
    (playout_count : Int) (cancelled : Bool) : Except String (Option (ℚ × ℚ)) :=
  if playout_count ≤ 0 then
    .error ("Number of playouts must be positive, not " ++ toString playout_count ++ ".")
  else if cancelled then
    .ok none  -- Cancelled during the playout loop: return None.
  else
    .ok (some (playouts move))

/-- `math.isclose` with the tolerances used by `pure_monte_carlo_game_search`
(`rel_tol=1e-5, abs_tol=1e-5`), over the rationals. -/
def isClose (a b : ℚ) : Prop :=
  |a - b| ≤ max ((1 / 100000 : ℚ) * max |a| |b|) (1 / 100000)

instance (a b : ℚ) : Decidable (isClose a b) := by
  unfold isClose; infer_instance

/-- The maximum of a list of rationals (`max(score for score, _ in scores.values())`;
equal to the Python `max` for a non-empty list). -/
def maxScore (scores : List ℚ) : ℚ :=
  scores.foldl max (scores.headD 0)

/-- `pure_monte_carlo_game_search` from `ai/solver.py`. The random playouts are
abstracted by the `playouts` oracle (see `determine_score_for_move`), and
`random.choice` over the best moves by the `choice` oracle; the cancellation
`Event` is a constant flag. The control flow — no legal moves, exactly one legal
move, the input validation raised by the first `determine_score_for_move` call,
the cancellation early return, and the best-move filtering — is translated exactly. -/
def pure_monte_carlo_game_search (playouts : CheckersMove → ℚ × ℚ)
    (choice : List CheckersMove → Option CheckersMove) (state : CheckersState)
    (playout_count_per_move : Int) (cancelled : Bool) :
    Except String (Option CheckersMove) := do
  let legal_moves := state.legal_moves
  if legal_moves.isEmpty then
    return none
  -- If there is only one legal move, return that one.
  if legal_moves.length = 1 then
    return legal_moves.head?
  -- Determine score and uncertainty for each legal move.
  let scores ← legal_moves.mapM
    (fun move => determine_score_for_move playouts move playout_count_per_move cancelled)
  if cancelled then
    return none
  -- Keep only the moves with the best score and choose one of those randomly.
  let score_values := scores.filterMap (fun so => so.map (fun p => p.1))
  let best_score := maxScore score_values
  let best_moves := ((legal_moves.zip score_values).filter
    (fun ms => decide (isClose ms.2 best_score))).map (fun ms => ms.1)
  return choice best_moves

/-! Concrete fixtures used by witness and counterexample theorems. -/

/-- A light man. -/
def lightMan : CheckersPiece := ⟨.LIGHT, .MAN⟩

/-- A dark man. -/
def darkMan : CheckersPiece := ⟨.DARK, .MAN⟩

/-- A light king. -/
def lightKing : CheckersPiece := ⟨.LIGHT, .KING⟩

/-- A dark king. -/
def darkKing : CheckersPiece := ⟨.DARK, .KING⟩

/-- An empty column of a 3-row board. -/
def emptyColumn3 : List (Option CheckersPiece) := [none, none, none]

/-- 3×3 board with a single light man at (0, 0); it has exactly one legal move. -/
def boardOneMan : CheckersBoard := ⟨3, 3, [[some lightMan, none, none], emptyColumn3, emptyColumn3]⟩

/-- 3×3 board with a light man at (0, 0) and a dark man at (1, 1): a capture position. -/
def boardCapture : CheckersBoard :=
  ⟨3, 3, [[some lightMan, none, none], [none, some darkMan, none], emptyColumn3]⟩

/-- 3×3 empty board: no legal moves for either player. -/
def boardEmpty3 : CheckersBoard := ⟨3, 3, [emptyColumn3, emptyColumn3, emptyColumn3]⟩

/-- 3×3 board with one king per player and no men: the insufficient-material draw census. -/
def boardTwoKings : CheckersBoard :=
  ⟨3, 3, [[some lightKing, none, none], emptyColumn3, [none, none, some darkKing]]⟩

/-- 3×3 board with a single light king at (0, 0); it has exactly two legal moves. -/
def boardKingSlide : CheckersBoard := ⟨3, 3, [[some lightKing, none, none], emptyColumn3, emptyColumn3]⟩

/-- State with exactly one legal move. -/
def stateOneMan : CheckersState := ⟨boardOneMan, .LIGHT, 0⟩

/-- State with no legal moves. -/
def stateNoMoves : CheckersState := ⟨boardEmpty3, .LIGHT, 0⟩

/-- State with exactly two legal moves. -/
def stateTwoMoves : CheckersState := ⟨boardKingSlide, .LIGHT, 0⟩

/-- A constant playout oracle. -/
def constPlayouts : CheckersMove → ℚ × ℚ := fun _ => (0, 0)

/-- The single legal move of `stateOneMan`. -/
def moveOneStep : CheckersMove := ⟨[⟨0, 0⟩, ⟨1, 1⟩]⟩

/-- A move that is not legal for `stateOneMan`. -/
def moveJump : CheckersMove := ⟨[⟨0, 0⟩, ⟨2, 2⟩]⟩

instance {ε α : Type} [DecidableEq ε] [DecidableEq α] : DecidableEq (Except ε α)
  | .ok a, .ok b =>
    if h : a = b then .isTrue (by rw [h]) else .isFalse (fun hc => by cases hc; exact h rfl)
  | .ok _, .error _ => .isFalse (fun hc => by cases hc)
  | .error _, .ok _ => .isFalse (fun hc => by cases hc)
  | .error a, .error b =>
    if h : a = b then .isTrue (by rw [h]) else .isFalse (fun hc => by cases hc; exact h rfl)

section ListLemmas

variable {α : Type}

theorem listGetD_set_self (l : List α) (i : Nat) (a d : α) (h : i < l.length) :
    (l.set i a).getD i d = a := by
  rw [List.getD_eq_getElem?_getD]
  simp [List.getElem?_set_self', h]

theorem listSet_getD_self (l : List α) (i : Nat) (a d : α) (h : i < l.length)
    (ha : l.getD i d = a) : l.set i a = l := by
  induction l generalizing i with
  | nil => simp at h
  | cons x t ih =>
    cases i with
    | zero => simp at ha; simp [List.set, ha]
    | succ j =>
      simp only [List.length_cons, Nat.succ_lt_succ_iff] at h
      simp only [List.getD_cons_succ] at ha
      simp [List.set, ih j h ha]

theorem listFilter_length_mono (l : List α) (p q : α → Bool)
    (h : ∀ a, p a = true → q a = true) :
    (l.filter p).length ≤ (l.filter q).length := by
  induction l with
  | nil => simp
  | cons x t ih =>
    by_cases hp : p x = true
    · rw [List.filter_cons_of_pos hp, List.filter_cons_of_pos (h x hp)]
      simpa using ih
    · rw [List.filter_cons_of_neg (by simpa using hp)]
      by_cases hq : q x = true
      · rw [List.filter_cons_of_pos hq]
        exact Nat.le_succ_of_le ih
      · rw [List.filter_cons_of_neg (by simpa using hq)]
        exact ih

theorem listFilter_length_lt (l : List α) (p q : α → Bool)
    (h : ∀ a, p a = true → q a = true) (x : α) (hx : x ∈ l) (hqx : q x = true)
    (hpx : p x = false) :
    (l.filter p).length < (l.filter q).length := by
  induction l with
  | nil => cases hx
  | cons y t ih =>
    rcases List.mem_cons.mp hx with rfl | hx
    · rw [List.filter_cons_of_pos hqx, List.filter_cons_of_neg (by simp [hpx])]
      exact Nat.lt_succ_of_le (listFilter_length_mono t p q h)
    · by_cases hp : p y = true
      · rw [List.filter_cons_of_pos hp, List.filter_cons_of_pos (h y hp)]
        simpa using ih hx
      · rw [List.filter_cons_of_neg (by simpa using hp)]
        by_cases hq : q y = true
        · rw [List.filter_cons_of_pos hq]
          exact Nat.lt_succ_of_lt (ih hx)
        · rw [List.filter_cons_of_neg (by simpa using hq)]
          exact ih hx

end ListLemmas

section BoardLemmas

theorem boardPieces_mem {b : CheckersBoard} {sq : Index2D} {p : CheckersPiece}
    (h : (sq, p) ∈ boardPieces b) : b.get sq = some p ∧ b.contains sq := by
  unfold boardPieces at h
  rw [List.mem_flatMap] at h
  obtain ⟨x, hxmem, h⟩ := h
  rw [List.mem_filterMap] at h
  obtain ⟨y, hymem, hf⟩ := h
  rw [List.mem_range] at hxmem
  rw [List.mem_range] at hymem
  rw [Option.map_eq_some'] at hf
  obtain ⟨q, hget, heq⟩ := hf
  cases heq
  refine ⟨hget, ?_, ?_, ?_, ?_⟩
  · exact Int.natCast_nonneg x
  · show (Int.ofNat x) < _
    rw [Int.ofNat_eq_natCast]
    exact_mod_cast hxmem
  · exact Int.natCast_nonneg y
  · show (Int.ofNat y) < _
    rw [Int.ofNat_eq_natCast]
    exact_mod_cast hymem

theorem board_set_restore {b : CheckersBoard} {sq : Index2D} {p : CheckersPiece}
    (hwf : b.wf) (hc : b.contains sq) (hget : b.get sq = some p) :
    (b.set sq none).set sq (some p) = b := by
  obtain ⟨hlen, hcols⟩ := hwf
  obtain ⟨hx0, hxlt, hy0, hylt⟩ := hc
  have hxlen : sq.x.toNat < b.cells.length := by omega
  unfold CheckersBoard.set CheckersBoard.get at *
  set x := sq.x.toNat with hxdef
  set y := sq.y.toNat with hydef
  set col := b.cells.getD x [] with hcoldef
  have hcolmem : col ∈ b.cells := by
    rw [hcoldef, List.getD_eq_getElem _ _ hxlen]
    exact List.getElem_mem hxlen
  have hylen : y < col.length := by
    rw [hcols col hcolmem]; omega
  simp only
  congr 1
  rw [listGetD_set_self _ _ _ _ hxlen, List.set_set, List.set_set]
  rw [listSet_getD_self _ _ _ _ hylen hget]
  exact listSet_getD_self _ _ _ _ hxlen rfl

theorem gatherCapturingMovesAux_board (player : CheckersPlayer)
    (l : List (Index2D × CheckersPiece)) (moves : List CheckersMove) (b : CheckersBoard)
    (hwf : b.wf) (hl : ∀ sp ∈ l, b.get sp.1 = some sp.2 ∧ b.contains sp.1) :
    (gatherCapturingMovesAux player l moves b).2 = b := by
  induction l generalizing moves with
  | nil => rfl
  | cons sp rest ih =>
    obtain ⟨sq, piece⟩ := sp
    have hsp := hl (sq, piece) (List.mem_cons_self _ _)
    have hrest : ∀ sp ∈ rest, b.get sp.1 = some sp.2 ∧ b.contains sp.1 :=
      fun sp h => hl sp (List.mem_cons_of_mem _ h)
    unfold gatherCapturingMovesAux
    by_cases hown : piece.owner = player
    · simp only [hown, if_pos rfl]
      rw [board_set_restore ⟨hwf.1, hwf.2⟩ hsp.2 hsp.1]
      exact ih _ hrest
    · simp only [if_neg hown]
      exact ih _ hrest

end BoardLemmas

/-- Claim C9: `determine_legal_moves` leaves the board unchanged. The capture-gathering
loop is the only code that mutates the board (it temporarily removes each of the
current player's pieces and puts it back; the capture-chain recursion itself only
reads the board), and the board it leaves behind equals the input board cell for
cell. -/
theorem determine_legal_moves_preserves_board (player : CheckersPlayer)
    (b : CheckersBoard) (hwf : b.wf) :
    (gatherCapturingMoves player b).2 = b :=
  gatherCapturingMovesAux_board player (boardPieces b) [] b hwf
    (fun sp h => boardPieces_mem (by simpa using h))

theorem findFirstPiece_some {b : CheckersBoard} {delta sq : Index2D} {fuel : Nat}
    {cs : Index2D} {cp : CheckersPiece}
    (h : findFirstPiece b delta sq fuel = some (cs, cp)) :
    b.get cs = some cp ∧ b.contains cs := by
  induction fuel generalizing sq with
  | zero => cases h
  | succ fuel ih =>
    unfold findFirstPiece at h
    split at h
    case isTrue hc =>
      cases hget : b.get sq with
      | some p => rw [hget] at h; cases h; exact ⟨hget, hc⟩
      | none => rw [hget] at h; exact ih h
    case isFalse hc => cases h

theorem add_legal_jumps_spec (piece : CheckersPiece) (origin : Index2D)
    (captured : List Index2D) (board : CheckersBoard) :
    ∀ j ∈ add_legal_jumps piece origin captured board,
      (∃ cp, board.get j.captured_square = some cp ∧ cp.owner ≠ piece.owner) ∧
      j.captured_square ∉ captured ∧ board.contains j.captured_square := by
  intro j hj
  obtain ⟨owner, ptype⟩ := piece
  cases ptype with
  | MAN =>
    simp only [add_legal_jumps] at hj
    rw [List.mem_filterMap] at hj
    obtain ⟨delta, _, hf⟩ := hj
    split at hf
    case isTrue h1 =>
      cases hget : board.get (origin + delta) with
      | none => rw [hget] at hf; cases hf
      | some cp =>
        rw [hget] at hf
        dsimp only at hf
        split at hf
        case isTrue => cases hf
        case isFalse howner =>
          split at hf
          case isTrue h2 =>
            split at hf
            case isTrue => cases hf
            case isFalse hcap =>
              cases hf
              exact ⟨⟨cp, hget, howner⟩, hcap, h1⟩
          case isFalse => cases hf
    case isFalse => cases hf
  | KING =>
    simp only [add_legal_jumps] at hj
    rw [List.mem_flatMap] at hj
    obtain ⟨delta, _, hmem⟩ := hj
    cases hfind : findFirstPiece board delta (origin + delta) board.rayFuel with
    | none => rw [hfind] at hmem; cases hmem
    | some pr =>
      obtain ⟨cs, cp⟩ := pr
      rw [hfind] at hmem
      dsimp only at hmem
      split at hmem
      case isTrue => cases hmem
      case isFalse howner =>
        split at hmem
        case isTrue => cases hmem
        case isFalse hcap =>
          rw [List.mem_map] at hmem
          obtain ⟨dest, _, hjeq⟩ := hmem
          cases hjeq
          have hfp := findFirstPiece_some hfind
          exact ⟨⟨cp, hfp.1, howner⟩, hcap, hfp.2⟩

theorem mem_boardPieces {b : CheckersBoard} {cs : Index2D} {cp : CheckersPiece}
    (hc : b.contains cs) (hget : b.get cs = some cp) : (cs, cp) ∈ boardPieces b := by
  obtain ⟨hx0, hxlt, hy0, hylt⟩ := hc
  have hx : (cs.x.toNat : Int) = cs.x := Int.toNat_of_nonneg hx0
  have hy : (cs.y.toNat : Int) = cs.y := Int.toNat_of_nonneg hy0
  unfold boardPieces
  rw [List.mem_flatMap]
  refine ⟨cs.x.toNat, by rw [List.mem_range]; omega, ?_⟩
  rw [List.mem_filterMap]
  refine ⟨cs.y.toNat, by rw [List.mem_range]; omega, ?_⟩
  have hsq : (⟨Int.ofNat cs.x.toNat, Int.ofNat cs.y.toNat⟩ : Index2D) = cs := by
    cases cs
    rw [Int.ofNat_eq_natCast, Int.ofNat_eq_natCast] at *
    simp only [Index2D.mk.injEq]
    exact ⟨hx, hy⟩
  rw [hsq, hget]
  rfl

theorem opponentUncapturedCount_append_lt {board : CheckersBoard} {owner : CheckersPlayer}
    {captured : List Index2D} {cs : Index2D} {cp : CheckersPiece}
    (hget : board.get cs = some cp) (howner : cp.owner ≠ owner)
    (hc : board.contains cs) (hnot : cs ∉ captured) :
    opponentUncapturedCount board owner (captured ++ [cs]) <
      opponentUncapturedCount board owner captured := by
  unfold opponentUncapturedCount
  refine listFilter_length_lt _ _ _ ?hmono (cs, cp) ?hmem ?hq ?hp
  case hmono =>
    intro a ha
    simp only [Bool.and_eq_true, decide_eq_true_eq] at ha ⊢
    refine ⟨ha.1, ?_⟩
    intro hmem
    exact ha.2 (List.mem_append_left _ hmem)
  case hmem => exact mem_boardPieces hc hget
  case hq =>
    simp only [Bool.and_eq_true, decide_eq_true_eq]
    exact ⟨howner, hnot⟩
  case hp =>
    simp only [Bool.and_eq_false_iff, decide_eq_false_iff_not]
    right
    intro hmem
    exact hmem (List.mem_append_right _ (List.mem_singleton.mpr rfl))
theorem alcm_succ (piece : CheckersPiece) (visited captured : List Index2D)
    (board : CheckersBoard) (fuel : Nat) :
    add_legal_capturing_moves piece visited captured board (fuel + 1) =
      (if (add_legal_jumps piece (visited.getLastD ⟨0, 0⟩) captured board).isEmpty then
        if 2 ≤ visited.length then [⟨visited⟩] else []
      else
        (add_legal_jumps piece (visited.getLastD ⟨0, 0⟩) captured board).flatMap
          (fun jump => add_legal_capturing_moves piece (visited ++ [jump.destination])
            (captured ++ [jump.captured_square]) board fuel)) := rfl

theorem alcm_fuel_congr (piece : CheckersPiece) (board : CheckersBoard) :
    ∀ n visited captured fuel1 fuel2,
      opponentUncapturedCount board piece.owner captured ≤ n →
      opponentUncapturedCount board piece.owner captured < fuel1 →
      opponentUncapturedCount board piece.owner captured < fuel2 →
      add_legal_capturing_moves piece visited captured board fuel1 =
      add_legal_capturing_moves piece visited captured board fuel2 := by
  intro n
  induction n using Nat.strong_induction_on with
  | _ n ih =>
    intro visited captured fuel1 fuel2 hn h1 h2
    obtain ⟨f1, rfl⟩ : ∃ f, fuel1 = f + 1 := ⟨fuel1 - 1, by omega⟩
    obtain ⟨f2, rfl⟩ : ∃ f, fuel2 = f + 1 := ⟨fuel2 - 1, by omega⟩
    rw [alcm_succ, alcm_succ]
    by_cases hje : (add_legal_jumps piece (visited.getLastD ⟨0, 0⟩) captured board).isEmpty
    · rw [if_pos hje, if_pos hje]
    · rw [if_neg hje, if_neg hje]
      apply List.flatMap_congr
      intro j hj
      obtain ⟨⟨cp, hget, howner⟩, hnotc, hcont⟩ :=
        add_legal_jumps_spec piece (visited.getLastD ⟨0, 0⟩) captured board j hj
      have hlt := opponentUncapturedCount_append_lt hget howner hcont hnotc
      exact ih (opponentUncapturedCount board piece.owner (captured ++ [j.captured_square]))
        (by omega) _ _ _ _ le_rfl (by omega) (by omega)

theorem alcm_length_bound (piece : CheckersPiece) (board : CheckersBoard) :
    ∀ n visited captured fuel,
      opponentUncapturedCount board piece.owner captured ≤ n →
      ∀ m ∈ add_legal_capturing_moves piece visited captured board fuel,
        m.len ≤ visited.length + opponentUncapturedCount board piece.owner captured := by
  intro n
  induction n using Nat.strong_induction_on with
  | _ n ih =>
    intro visited captured fuel hn m hm
    cases fuel with
    | zero => cases hm
    | succ fuel =>
      rw [alcm_succ] at hm
      by_cases hje : (add_legal_jumps piece (visited.getLastD ⟨0, 0⟩) captured board).isEmpty
      · rw [if_pos hje] at hm
        by_cases hv : 2 ≤ visited.length
        · rw [if_pos hv] at hm
          rw [List.mem_singleton] at hm
          subst hm
          exact Nat.le_add_right _ _
        · rw [if_neg hv] at hm
          cases hm
      · rw [if_neg hje] at hm
        rw [List.mem_flatMap] at hm
        obtain ⟨j, hj, hm⟩ := hm
        obtain ⟨⟨cp, hget, howner⟩, hnotc, hcont⟩ :=
          add_legal_jumps_spec piece (visited.getLastD ⟨0, 0⟩) captured board j hj
        have hlt := opponentUncapturedCount_append_lt hget howner hcont hnotc
        have hb := ih (opponentUncapturedCount board piece.owner (captured ++ [j.captured_square]))
          (by omega) _ _ fuel le_rfl m hm
        rw [List.length_append] at hb
        simp only [List.length_singleton] at hb
        omega

theorem alcm_len_ge_two (piece : CheckersPiece) (board : CheckersBoard) :
    ∀ fuel visited captured,
      ∀ m ∈ add_legal_capturing_moves piece visited captured board fuel, 2 ≤ m.len := by
  intro fuel
  induction fuel with
  | zero => intro _ _ m hm; cases hm
  | succ fuel ih =>
    intro visited captured m hm
    rw [alcm_succ] at hm
    by_cases hje : (add_legal_jumps piece (visited.getLastD ⟨0, 0⟩) captured board).isEmpty
    · rw [if_pos hje] at hm
      by_cases hv : 2 ≤ visited.length
      · rw [if_pos hv] at hm
        rw [List.mem_singleton] at hm
        subst hm
        exact hv
      · rw [if_neg hv] at hm
        cases hm
    · rw [if_neg hje] at hm
      rw [List.mem_flatMap] at hm
      obtain ⟨j, hj, hm⟩ := hm
      exact ih _ _ m hm


/-- Claim C10: the capture-chain recursion of `add_legal_capturing_moves` terminates.
Every jump gathered by `add_legal_jumps` captures a square that holds an opponent
piece on the board and is distinct from all previously captured squares, so each
recursion level strictly decreases the number of uncaptured opponent pieces.
Consequently any two fuel values exceeding that number produce the same (fully
explored) move list, and every produced move has at most `visited.length` plus
that number of visited squares, bounding the recursion depth by the number of
opponent pieces. -/
theorem add_legal_capturing_moves_terminates (piece : CheckersPiece) (origin : Index2D)
    (visited captured : List Index2D) (board : CheckersBoard) :
    (∀ j ∈ add_legal_jumps piece origin captured board,
        (∃ cp, board.get j.captured_square = some cp ∧ cp.owner ≠ piece.owner) ∧
        j.captured_square ∉ captured) ∧
    (∀ fuel1 fuel2, opponentUncapturedCount board piece.owner captured < fuel1 →
        opponentUncapturedCount board piece.owner captured < fuel2 →
        add_legal_capturing_moves piece visited captured board fuel1 =
        add_legal_capturing_moves piece visited captured board fuel2) ∧
    (∀ fuel, ∀ m ∈ add_legal_capturing_moves piece visited captured board fuel,
        m.len ≤ visited.length + opponentUncapturedCount board piece.owner captured) :=
  ⟨fun j hj => ⟨(add_legal_jumps_spec piece origin captured board j hj).1,
      (add_legal_jumps_spec piece origin captured board j hj).2.1⟩,
   fun fuel1 fuel2 h1 h2 =>
      alcm_fuel_congr piece board _ visited captured fuel1 fuel2 le_rfl h1 h2,
   fun fuel m hm => alcm_length_bound piece board _ visited captured fuel le_rfl m hm⟩

/-- Witness for the C10 theorem at a concrete capture position: with one opponent
piece on the board, any fuel of at least 2 fully explores the capture chains. -/
theorem add_legal_capturing_moves_terminates_witness :
    opponentUncapturedCount boardCapture lightMan.owner [] < 2 ∧
    add_legal_capturing_moves lightMan [⟨0, 0⟩] [] boardCapture 2 =
      add_legal_capturing_moves lightMan [⟨0, 0⟩] [] boardCapture 50 :=
  ⟨by decide,
   (add_legal_capturing_moves_terminates lightMan ⟨0, 0⟩ [⟨0, 0⟩] [] boardCapture).2.1
     2 50 (by decide) (by decide)⟩

/-- Witness for the C9 theorem at a concrete capture position. -/
theorem determine_legal_moves_preserves_board_witness :
    boardCapture.wf ∧ (gatherCapturingMoves .LIGHT boardCapture).2 = boardCapture :=
  ⟨by decide, determine_legal_moves_preserves_board .LIGHT boardCapture (by decide)⟩

theorem gatherAux_moves_mem (player : CheckersPlayer) :
    ∀ (l : List (Index2D × CheckersPiece)) (moves : List CheckersMove) (b : CheckersBoard)
      (m : CheckersMove), m ∈ (gatherCapturingMovesAux player l moves b).1 →
      m ∈ moves ∨ 2 ≤ m.len := by
  intro l
  induction l with
  | nil => intro moves b m hm; exact Or.inl hm
  | cons sp rest ih =>
    intro moves b m hm
    obtain ⟨sq, piece⟩ := sp
    unfold gatherCapturingMovesAux at hm
    by_cases hown : piece.owner = player
    · rw [if_pos hown] at hm
      rcases ih _ _ m hm with hmem | hlen
      · rw [List.mem_append] at hmem
        rcases hmem with h | h
        · exact Or.inl h
        · exact Or.inr (alcm_len_ge_two piece _ _ _ _ m h)
      · exact Or.inr hlen
    · rw [if_neg hown] at hm
      exact ih _ _ m hm

theorem gather_moves_len (player : CheckersPlayer) (b : CheckersBoard) :
    ∀ m ∈ (gatherCapturingMoves player b).1, 2 ≤ m.len := by
  intro m hm
  rcases gatherAux_moves_mem player (boardPieces b) [] b m hm with h | h
  · cases h
  · exact h

theorem foldl_max_init_le (l : List CheckersMove) :
    ∀ init : Nat, init ≤ l.foldl (fun acc m => Nat.max acc m.len) init := by
  induction l with
  | nil => intro init; exact le_rfl
  | cons x t ih =>
    intro init
    exact le_trans (Nat.le_max_left init x.len) (ih _)

theorem le_maxMoveLength_foldl (l : List CheckersMove) :
    ∀ (init : Nat) (m : CheckersMove), m ∈ l →
      m.len ≤ l.foldl (fun acc m => Nat.max acc m.len) init := by
  induction l with
  | nil => intro _ m hm; cases hm
  | cons x t ih =>
    intro init m hm
    rcases List.mem_cons.mp hm with rfl | hm
    · exact le_trans (Nat.le_max_right init m.len) (foldl_max_init_le t _)
    · exact ih _ m hm

theorem le_maxMoveLength (moves : List CheckersMove) (m : CheckersMove) (hm : m ∈ moves) :
    m.len ≤ maxMoveLength moves :=
  le_maxMoveLength_foldl moves 0 m hm

/-- Claim C1: for every player and board, if `determine_legal_moves` finds any
capturing move, the returned list consists exactly of the gathered capturing
moves of maximum length: every returned move is one of the gathered capturing
moves (so no non-capturing move is generated or returned — the non-capture
phase is never entered) and has the maximum length over all gathered capturing
moves (and at least two visited squares), and every gathered capturing move of
maximum length is returned. -/
theorem determine_legal_moves_mandatory_max_captures (player : CheckersPlayer)
    (b : CheckersBoard) (hcap : (gatherCapturingMoves player b).1 ≠ []) :
    determine_legal_moves player b =
      (gatherCapturingMoves player b).1.filter
        (fun m => m.len = maxMoveLength (gatherCapturingMoves player b).1) ∧
    (∀ m ∈ determine_legal_moves player b,
      m ∈ (gatherCapturingMoves player b).1 ∧
      m.len = maxMoveLength (gatherCapturingMoves player b).1 ∧ 2 ≤ m.len) ∧
    (∀ m ∈ (gatherCapturingMoves player b).1,
      m.len ≤ maxMoveLength (gatherCapturingMoves player b).1 ∧
      (m.len = maxMoveLength (gatherCapturingMoves player b).1 →
        m ∈ determine_legal_moves player b)) := by
  have hje : (gatherCapturingMoves player b).1.isEmpty = false := by
    rw [List.isEmpty_eq_false]
    exact hcap
  have hdlm : determine_legal_moves player b =
      (gatherCapturingMoves player b).1.filter
        (fun m => m.len = maxMoveLength (gatherCapturingMoves player b).1) := by
    unfold determine_legal_moves
    simp only [hje, Bool.false_eq_true, if_false]
  refine ⟨hdlm, ?_, ?_⟩
  · intro m hm
    rw [hdlm, List.mem_filter] at hm
    have hlen : m.len = maxMoveLength (gatherCapturingMoves player b).1 := by
      simpa using hm.2
    exact ⟨hm.1, hlen, gather_moves_len player b m hm.1⟩
  · intro m hm
    refine ⟨le_maxMoveLength _ m hm, fun hlen => ?_⟩
    rw [hdlm, List.mem_filter]
    exact ⟨hm, by simp [hlen]⟩

/-- Witness for the C1 theorem at a concrete capture position. -/
theorem determine_legal_moves_mandatory_max_captures_witness :
    (gatherCapturingMoves .LIGHT boardCapture).1 ≠ [] ∧
    determine_legal_moves .LIGHT boardCapture =
      (gatherCapturingMoves .LIGHT boardCapture).1.filter
        (fun m => m.len = maxMoveLength (gatherCapturingMoves .LIGHT boardCapture).1) :=
  ⟨by decide,
   (determine_legal_moves_mandatory_max_captures .LIGHT boardCapture (by decide)).1⟩

/-- Claim C2 (amended): when `legal_move_count == 0` and the ply count is positive,
`determine_result` declares the other player the winner and carries the passed
ply count; for `ply_count ≤ 0` (in particular `ply_count = 0`) the
`CheckersGameResult` validation raises instead of returning a result. -/
theorem determine_result_no_moves (board : CheckersBoard) (current_player : CheckersPlayer)
    (ply_count : Int) (hply : 0 < ply_count) :
    determine_result board current_player ply_count 0 =
      .ok (some ⟨some (match current_player with | .LIGHT => .DARK | .DARK => .LIGHT),
        ply_count⟩) := by
  unfold determine_result mkCheckersGameResult
  have hnp : ¬ (ply_count ≤ 0) := by omega
  simp only [if_pos (le_refl (0 : Int)), if_neg hnp, Except.map]

/-- Witness for the C2 theorem: a lost position at ply count 5. -/
theorem determine_result_no_moves_witness :
    (0 : Int) < 5 ∧
    determine_result boardEmpty3 .LIGHT 5 0 = .ok (some ⟨some .DARK, 5⟩) :=
  ⟨by decide, determine_result_no_moves boardEmpty3 .LIGHT 5 (by decide)⟩

/-- Counterexample to C2 as stated: with `ply_count = 0` (a non-negative value the
claim includes), `determine_result` does not return a winning result — the
`CheckersGameResult.__post_init__` validation raises a `ValueError` because the
total ply count must be positive. -/
theorem determine_result_no_moves_counterexample :
    determine_result boardEmpty3 .LIGHT 0 0 =
      .error "Total ply count must be positive, not 0." := by decide

/-- The number of pieces of a given owner and type on a board. -/
def countPieces (board : CheckersBoard) (owner : CheckersPlayer)
    (ptype : CheckersPieceType) : Nat :=
  (boardPieces board).countP (fun sp => decide (sp.2.owner = owner ∧ sp.2.type = ptype))

theorem countPiecesLoop_general (l : List (Index2D × CheckersPiece)) :
    ∀ acc : Nat × Nat × Nat × Nat,
      l.foldl (fun counts sp =>
        match sp.2.owner, sp.2.type with
        | .LIGHT, .MAN => (counts.1 + 1, counts.2.1, counts.2.2.1, counts.2.2.2)
        | .DARK, .MAN => (counts.1, counts.2.1 + 1, counts.2.2.1, counts.2.2.2)
        | .LIGHT, .KING => (counts.1, counts.2.1, counts.2.2.1 + 1, counts.2.2.2)
        | .DARK, .KING => (counts.1, counts.2.1, counts.2.2.1, counts.2.2.2 + 1)) acc =
      (acc.1 + l.countP (fun sp => decide (sp.2.owner = .LIGHT ∧ sp.2.type = .MAN)),
       acc.2.1 + l.countP (fun sp => decide (sp.2.owner = .DARK ∧ sp.2.type = .MAN)),
       acc.2.2.1 + l.countP (fun sp => decide (sp.2.owner = .LIGHT ∧ sp.2.type = .KING)),
       acc.2.2.2 + l.countP (fun sp => decide (sp.2.owner = .DARK ∧ sp.2.type = .KING))) := by
  induction l with
  | nil => intro acc; simp
  | cons sp rest ih =>
    intro acc
    obtain ⟨sq, piece⟩ := sp
    obtain ⟨owner, ptype⟩ := piece
    cases owner <;> cases ptype <;>
      simp [List.foldl_cons, List.countP_cons, ih] <;> omega

theorem countPiecesLoop_eq (board : CheckersBoard) :
    countPiecesLoop board =
      (countPieces board .LIGHT .MAN, countPieces board .DARK .MAN,
       countPieces board .LIGHT .KING, countPieces board .DARK .KING) := by
  unfold countPiecesLoop countPieces
  rw [countPiecesLoop_general]
  simp

/-- Claim C7: with legal moves available (`legal_move_count > 0`) and a positive ply
count, `determine_result` declares an immediate draw carrying the current ply
count exactly when both players have zero men and exactly one king each,
regardless of whose turn it is; with any other piece census it returns no result. -/
theorem determine_result_king_vs_king (board : CheckersBoard)
    (current_player : CheckersPlayer) (ply_count legal_move_count : Int)
    (hlmc : 0 < legal_move_count) (hply : 0 < ply_count) :
    (countPieces board .LIGHT .MAN = 0 ∧ countPieces board .DARK .MAN = 0 ∧
      countPieces board .LIGHT .KING = 1 ∧ countPieces board .DARK .KING = 1 →
      determine_result board current_player ply_count legal_move_count =
        .ok (some ⟨none, ply_count⟩)) ∧
    (¬ (countPieces board .LIGHT .MAN = 0 ∧ countPieces board .DARK .MAN = 0 ∧
      countPieces board .LIGHT .KING = 1 ∧ countPieces board .DARK .KING = 1) →
      determine_result board current_player ply_count legal_move_count = .ok none) := by
  have h1 : ¬ (legal_move_count ≤ 0) := by omega
  have h2 : ¬ (ply_count ≤ 0) := by omega
  unfold determine_result
  simp only [if_neg h1, countPiecesLoop_eq]
  constructor
  · intro hc
    rw [if_pos hc]
    unfold mkCheckersGameResult
    simp only [if_neg h2, Except.map]
  · intro hc
    rw [if_neg hc]

/-- Witness for the C7 theorem at a concrete king-versus-king position. -/
theorem determine_result_king_vs_king_witness :
    (0 : Int) < 1 ∧ (0 : Int) < 5 ∧
    (countPieces boardTwoKings .LIGHT .MAN = 0 ∧ countPieces boardTwoKings .DARK .MAN = 0 ∧
      countPieces boardTwoKings .LIGHT .KING = 1 ∧ countPieces boardTwoKings .DARK .KING = 1) ∧
    determine_result boardTwoKings .LIGHT 5 1 = .ok (some ⟨none, 5⟩) :=
  ⟨by decide, by decide, by decide,
   (determine_result_king_vs_king boardTwoKings .LIGHT 5 1 (by decide) (by decide)).1
     (by decide)⟩

/-- Claim C3: `CheckersState.apply` raises an "illegal move" error if and only if
the move is not a member of the state's current legal moves, and when it raises,
the state carried at the raise point (board, current player, ply count) is exactly
the unmodified input state: the legality check precedes every mutation, so nothing
is partially mutated. -/
theorem checkers_state_apply_illegal (s : CheckersState) (move : CheckersMove) :
    ((∃ e, s.apply move = .error e) ↔ move ∉ s.legal_moves) ∧
    (∀ msg s', s.apply move = .error (msg, s') → s' = s) := by
  unfold CheckersState.apply
  by_cases h : move ∈ s.legal_moves
  · simp [h]
  · simp [h]

/-- Witness for the C3 theorem: a concrete illegal move on a concrete state. -/
theorem checkers_state_apply_illegal_witness :
    moveJump ∉ stateOneMan.legal_moves ∧ (∃ e, stateOneMan.apply moveJump = .error e) :=
  ⟨by decide, (checkers_state_apply_illegal stateOneMan moveJump).1.mpr (by decide)⟩

/-- Claim C8: `pure_monte_carlo_game_search` returns "no move" when the state
has no legal moves, and with exactly one legal move returns that move
immediately — independent of the playout oracle, tie-break choice, playout
budget and cancellation flag, since no playouts are run on that path. -/
theorem pure_monte_carlo_single_move (state : CheckersState) :
    (state.legal_moves = [] →
      ∀ playouts choice n cancelled,
        pure_monte_carlo_game_search playouts choice state n cancelled = .ok none) ∧
    (∀ m, state.legal_moves = [m] →
      ∀ playouts choice n cancelled,
        pure_monte_carlo_game_search playouts choice state n cancelled = .ok (some m)) := by
  constructor
  · intro h playouts choice n cancelled
    unfold pure_monte_carlo_game_search
    rw [h]
    rfl
  · intro m h playouts choice n cancelled
    unfold pure_monte_carlo_game_search
    rw [h]
    rfl

/-- Witness for the C8 theorem on concrete states with zero and one legal move. -/
theorem pure_monte_carlo_single_move_witness :
    stateNoMoves.legal_moves = [] ∧ stateOneMan.legal_moves = [moveOneStep] ∧
    pure_monte_carlo_game_search constPlayouts List.head? stateNoMoves 7 true = .ok none ∧
    pure_monte_carlo_game_search constPlayouts List.head? stateOneMan 0 false =
      .ok (some moveOneStep) :=
  ⟨by decide, by decide,
   (pure_monte_carlo_single_move stateNoMoves).1 (by decide) constPlayouts List.head? 7 true,
   (pure_monte_carlo_single_move stateOneMan).2 moveOneStep (by decide)
     constPlayouts List.head? 0 false⟩

/-- Claim C4 (amended): `pure_monte_carlo_game_search` raises the
input-validation error for a playout budget `N ≤ 0` exactly when the state has at
least two legal moves — the validation lives in `determine_score_for_move`, which
is reached only then. With zero legal moves the search returns "no move" and with
exactly one it returns that move, in both cases before ever validating `N`. -/
theorem pure_monte_carlo_validation (state : CheckersState) (n : Int)
    (hn : n ≤ 0) (h2 : 2 ≤ state.legal_moves.length) :
    ∀ playouts choice cancelled,
      pure_monte_carlo_game_search playouts choice state n cancelled =
        .error ("Number of playouts must be positive, not " ++ toString n ++ ".") := by
  intro playouts choice cancelled
  obtain ⟨m1, rest, hl⟩ : ∃ m1 rest, state.legal_moves = m1 :: rest := by
    cases h : state.legal_moves with
    | nil => rw [h] at h2; cases h2
    | cons a l => exact ⟨a, l, rfl⟩
  have hrest : rest ≠ [] := by
    intro hr
    rw [hl, hr] at h2
    simp at h2
  unfold pure_monte_carlo_game_search
  rw [hl]
  simp only [List.isEmpty_cons, List.length_cons]
  have hlen : ¬ (rest.length + 1 = 1) := by
    intro hc
    exact hrest (List.length_eq_zero.mp (by omega))
  simp only [hlen, if_false]
  rw [List.mapM_cons]
  unfold determine_score_for_move
  rw [if_pos hn]
  rfl

/-- Counterexample to C4 as stated: with `N = 0 ≤ 0` and a state with exactly one
legal move (respectively zero legal moves) the search returns that move
(respectively "no move") without raising any input-validation error. -/
theorem pure_monte_carlo_validation_counterexample :
    pure_monte_carlo_game_search constPlayouts List.head? stateOneMan 0 false =
      .ok (some moveOneStep) ∧
    pure_monte_carlo_game_search constPlayouts List.head? stateNoMoves 0 false = .ok none :=
  ⟨by rfl, by rfl⟩

/-- Witness for the amended C4 theorem: two legal moves and `N = 0` do raise the
input-validation error. -/
theorem pure_monte_carlo_validation_witness :
    (0 : Int) ≤ 0 ∧ 2 ≤ stateTwoMoves.legal_moves.length ∧
    pure_monte_carlo_game_search constPlayouts List.head? stateTwoMoves 0 false =
      .error ("Number of playouts must be positive, not " ++ toString (0 : Int) ++ ".") :=
  ⟨le_rfl, by decide,
   pure_monte_carlo_validation stateTwoMoves 0 le_rfl (by decide)
     constPlayouts List.head? false⟩

/-- Claim C6: `determine_score` maps outcomes exactly as specified: an undecided
outcome scores `1/2`; a draw scores `1/2 + min(0.001·t, 0.2)`; a win for the
player scores `1 − min(0.001·t, 0.2)`; a loss scores `0 + min(0.001·t, 0.2)`;
consequently for all positive ply counts every win score exceeds every draw score
and every draw score exceeds every loss score. -/
theorem determine_score_mapping (player : CheckersPlayer) :
    (determine_score none player = 1 / 2) ∧
    (∀ t : Int, determine_score (some ⟨none, t⟩) player =
      1 / 2 + min ((1 / 1000 : ℚ) * t) (1 / 5)) ∧
    (∀ t : Int, determine_score (some ⟨some player, t⟩) player =
      1 - min ((1 / 1000 : ℚ) * t) (1 / 5)) ∧
    (∀ (w : CheckersPlayer) (t : Int), w ≠ player →
      determine_score (some ⟨some w, t⟩) player = 0 + min ((1 / 1000 : ℚ) * t) (1 / 5)) ∧
    (∀ tw td tl : Int, 0 < tw → 0 < td → 0 < tl →
      determine_score (some ⟨some player, tw⟩) player >
        determine_score (some ⟨none, td⟩) player ∧
      determine_score (some ⟨none, td⟩) player >
        determine_score (some ⟨some player.next, tl⟩) player) := by
  have hnext : player.next ≠ player := by cases player <;> simp [CheckersPlayer.next]
  refine ⟨rfl, fun t => rfl, fun t => by simp [determine_score], ?_, ?_⟩
  · intro w t hw
    simp [determine_score, hw]
  · intro tw td tl hw hd hl
    have cw : (0 : ℚ) < (tw : ℚ) := by exact_mod_cast hw
    have cd : (0 : ℚ) < (td : ℚ) := by exact_mod_cast hd
    have cl : (0 : ℚ) < (tl : ℚ) := by exact_mod_cast hl
    have h1 : min ((1 / 1000 : ℚ) * tw) (1 / 5) ≤ 1 / 5 := min_le_right _ _
    have h2 : min ((1 / 1000 : ℚ) * td) (1 / 5) ≤ 1 / 5 := min_le_right _ _
    have h3 : (0 : ℚ) ≤ min ((1 / 1000 : ℚ) * td) (1 / 5) :=
      le_min (by linarith) (by norm_num)
    have h4 : min ((1 / 1000 : ℚ) * tl) (1 / 5) ≤ 1 / 5 := min_le_right _ _
    constructor
    · simp only [determine_score, eq_self_iff_true, if_true]
      linarith
    · simp only [determine_score, if_neg hnext]
      linarith

/-- Witness for the C6 theorem: the ordering at concrete ply counts. -/
theorem determine_score_mapping_witness :
    (0 : Int) < 1 ∧
    determine_score (some ⟨some .LIGHT, 1⟩) .LIGHT >
      determine_score (some ⟨none, 1⟩) .LIGHT :=
  ⟨by decide,
   ((determine_score_mapping .LIGHT).2.2.2.2 1 1 1 (by decide) (by decide) (by decide)).1⟩

/-- Counterexample to C5 as stated: at total ply counts 200 and 300 the game
duration score is capped at `0.2` on both sides, so the win scores (and the loss
scores) are equal rather than strictly ordered. -/
theorem determine_score_monotone_counterexample :
    (0 : Int) < 200 ∧ (200 : Int) < 300 ∧
    determine_score (some ⟨some .LIGHT, 200⟩) .LIGHT =
      determine_score (some ⟨some .LIGHT, 300⟩) .LIGHT ∧
    determine_score (some ⟨some .DARK, 200⟩) .LIGHT =
      determine_score (some ⟨some .DARK, 300⟩) .LIGHT := by
  refine ⟨by decide, by decide, ?_, ?_⟩ <;> simp [determine_score] <;> norm_num

/-- Claim C5 (amended): for fixed outcome type, a strictly smaller
`total_ply_count` yields a strictly higher win-score and a strictly lower
loss-score whenever the smaller count is below 200 (where `0.001·t` stays below
the `0.2` cap); at 200 and beyond the game-duration score is capped and the
scores are equal, so the ordering is only non-strict there. -/
theorem determine_score_monotone (player : CheckersPlayer) (t1 t2 : Int)
    (h0 : 0 < t1) (h12 : t1 < t2) (hcap : t1 < 200) :
    determine_score (some ⟨some player, t1⟩) player >
      determine_score (some ⟨some player, t2⟩) player ∧
    determine_score (some ⟨some player.next, t1⟩) player <
      determine_score (some ⟨some player.next, t2⟩) player := by
  have hnext : player.next ≠ player := by cases player <;> simp [CheckersPlayer.next]
  have c1 : (t1 : ℚ) < 200 := by exact_mod_cast hcap
  have c2 : (t1 : ℚ) < (t2 : ℚ) := by exact_mod_cast h12
  have hglt : min ((1 / 1000 : ℚ) * t1) (1 / 5) < min ((1 / 1000 : ℚ) * t2) (1 / 5) := by
    rw [min_eq_left (by linarith)]
    exact lt_min (by linarith) (by linarith)
  constructor
  · simp only [determine_score, eq_self_iff_true, if_true]
    linarith
  · simp only [determine_score, if_neg hnext]
    linarith

/-- Witness for the amended C5 theorem at ply counts 1 and 2. -/
theorem determine_score_monotone_witness :
    (0 : Int) < 1 ∧ (1 : Int) < 2 ∧ (1 : Int) < 200 ∧
    determine_score (some ⟨some .LIGHT, 1⟩) .LIGHT >
      determine_score (some ⟨some .LIGHT, 2⟩) .LIGHT :=
  ⟨by decide, by decide, by decide,
   (determine_score_monotone .LIGHT 1 2 (by decide) (by decide) (by decide)).1⟩
